import Mathlib

/-!
# kvrocks_controller: option parsing and topology synchronisation

A shallow embedding of two parts of the repository:

* `cmd/cli/options.go`: `parseOptions`, the option parser of the command-line client;
* `controller/syncer.go`: `handleEvent`, `handleClusterEvent`,
  `syncClusterInfoToNode` and `syncClusterInfoToAllNodes`.

Go strings are modelled by `String` (sequences of runes, that is, well-formed UTF-8),
Go `int` and `int64` by `Int` (the only place where the width matters is the range
check of `strconv.Atoi`, which is kept), Go's `error` by the type `Error`.
-/

namespace Kvrocks

/-! ## Errors -/

/-- Go `error` values, by the way they were built. -/
inductive Error where
  /-- `errors.New(text)`, or `fmt.Errorf(text)` with the verbs already filled in. -/
  | New (text : String)
  /-- `strconv.NumError` of function `fn` on input `str` with `strconv.ErrSyntax`. -/
  | ErrSyntax (fn str : String)
  /-- `strconv.NumError` of function `fn` on input `str` with `strconv.ErrRange`. -/
  | ErrRange (fn str : String)
  /-- `fmt.Errorf(text + "%w", err)`: `err` wrapped behind the text `text`. -/
  | Wrap (text : String) (err : Error)
  /-- `fmt.Errorf("%v", errs)`: the rendering of a slice of errors. -/
  | Batch (errs : List Error)

/-! ## The parts of the Go standard library that `parseOptions` calls -/

namespace strings

/-- The rune-level map behind `strings.ToLower` (`unicode.ToLower`), exact on every rune
whose lower case is an ASCII rune: `A`..`Z`, U+0130 (lower case `i`) and U+212A
(lower case `k`). Every other rune is left as it is; Go maps some of them to other
non-ASCII runes, which no comparison made by `parseOptions` can tell apart, since the
lowered string is only ever compared with ASCII literals. -/
def toLowerRune (c : Char) : Char :=
  if 'A' ≤ c ∧ c ≤ 'Z' then Char.ofNat (c.toNat + 32)
  else if c = Char.ofNat 0x130 then 'i'
  else if c = Char.ofNat 0x212A then 'k'
  else c

/-- Go's `strings.ToLower`. -/
def ToLower (s : String) : String := ⟨s.data.map toLowerRune⟩

/-- Go's `strings.HasPrefix(s, p)`. -/
def HasPrefix (s p : String) : Bool := p.data.isPrefixOf s.data

/-- Go's `unicode.IsSpace`. -/
def isSpace (c : Char) : Bool :=
  let n := c.toNat
  (9 ≤ n ∧ n ≤ 13) ∨ n = 0x20 ∨ n = 0x85 ∨ n = 0xA0 ∨ n = 0x1680 ∨
  (0x2000 ≤ n ∧ n ≤ 0x200A) ∨ n = 0x2028 ∨ n = 0x2029 ∨ n = 0x202F ∨ n = 0x205F ∨ n = 0x3000

/-- Go's `strings.TrimSpace`: leading and trailing white space removed. -/
def TrimSpace (s : String) : String :=
  ⟨((s.data.dropWhile isSpace).reverse.dropWhile isSpace).reverse⟩

/-- The pieces of `cs` between the occurrences of the rune `sep`; `cur` holds, reversed,
the runes of the piece being read. -/
def splitRunes (sep : Char) : List Char → List Char → List String
  | [], cur => [⟨cur.reverse⟩]
  | c :: cs, cur =>
    if c = sep then ⟨cur.reverse⟩ :: splitRunes sep cs [] else splitRunes sep cs (c :: cur)

/-- Go's `strings.Split(s, sep)` for a separator of one rune, as in `strings.Split(s, ",")`:
one piece more than there are separators in `s`. -/
def Split (s : String) (sep : Char) : List String := splitRunes sep s.data []

end strings

namespace strconv

/-- The digit loop of `strconv.ParseUint` in base 10 on behalf of `Atoi` called on `s`:
the value of a string of ASCII digits, read after the digits already in `acc`. The
first rune that is not a digit ends the loop with a syntax error, the first digit that
takes the value out of the 64-bit unsigned range with a range error, whichever comes
first. -/
def digits (s : String) : List Char → Nat → Except Error Nat
  | [], acc => .ok acc
  | c :: cs, acc =>
    if '0' ≤ c ∧ c ≤ '9' then
      if acc * 10 + (c.toNat - '0'.toNat) < 18446744073709551616 then
        digits s cs (acc * 10 + (c.toNat - '0'.toNat))
      else .error (.ErrRange "Atoi" s)
    else .error (.ErrSyntax "Atoi" s)

/-- Go's `strconv.Atoi` where `int` has 64 bits: an optional sign, then one or more
decimal digits; a value outside `[-2^63, 2^63)` is a range error. -/
def Atoi (s : String) : Except Error Int :=
  let body : List Char := match s.data with
    | '+' :: cs => cs
    | '-' :: cs => cs
    | cs => cs
  let neg : Bool := match s.data with
    | '-' :: _ => true
    | _ => false
  match body with
  | [] => .error (.ErrSyntax "Atoi" s)
  | _ :: _ =>
    match digits s body 0 with
    | .error err => .error err
    | .ok n =>
      let v : Int := if neg then -(n : Int) else (n : Int)
      if -(2 : Int) ^ 63 ≤ v ∧ v < (2 : Int) ^ 63 then .ok v else .error (.ErrRange "Atoi" s)

end strconv

/-! ## `cmd/cli/options.go` -/

namespace cli

open strings strconv

/-- The options of a command; `Typ` is the field `Type` of the source, and `Nodes` is
`none` for a nil slice. -/
structure resourceOptions where
  Namespace : String
  Cluster : String
  Shard : Int
  Replica : Int
  Nodes : Option (List String)
  Typ : String
deriving DecidableEq, Repr

/-- What `parseOptions` returns: the pair `(*resourceOptions, error)`, `none` for nil. -/
abbrev Result := Option resourceOptions × Option Error

/-- How one pass through the body of the loop of `parseOptions` ends: at the next pass
(over the arguments `rest` that are left, with the options `options`) or by returning. -/
inductive Ctl where
  | next (rest : List String) (options : resourceOptions)
  | ret (r : Result)

/-- The loop `for _, node := range nodes` of the `--nodes` case: the pieces of length 0
are skipped, the others appended to `acc`. -/
def appendNodes : List String → List String → List String
  | [], acc => acc
  | node :: nodes, acc =>
    if node.length = 0 then appendNodes nodes acc else appendNodes nodes (acc ++ [node])

/-- One pass through the loop of `parseOptions`: `rest` is `args[i:]`, so that `args[i]`
is its head `arg`, and `lastArg` holds when the `tail` after the head is empty; `args` is
the whole argument list (the `--type` case reads `args[0]`, which exists whenever the
loop body runs). The loop condition `i < len(args)` fails when `rest` is empty, and the
options are returned. -/
def step (args : List String) (allowEmptyValue : Bool) (rest : List String)
    (options : resourceOptions) : Ctl :=
  match rest with
  | [] => .ret (some options, none)
  | arg :: tail =>
    if ToLower arg = "--namespace" then
      match tail with
      | [] => .ret (none, some (.New "missing namespace value"))
      | v :: tail' =>
        if HasPrefix v "-" then .ret (none, some (.New "namespace should NOT start with '-'"))
        else .next tail' { options with Namespace := v }
    else if ToLower arg = "--cluster" then
      match tail with
      | [] =>
        if allowEmptyValue then .ret (some options, none)
        else .ret (none, some (.New "missing cluster value"))
      | v :: tail' =>
        if HasPrefix v "-" then .ret (none, some (.New "cluster should NOT start with '-'"))
        else .next tail' { options with Cluster := v }
    else if ToLower arg = "--shard" then
      match tail with
      | [] =>
        if allowEmptyValue then .ret (some options, none)
        else .ret (some options, some (.New "missing shard value"))
      | v :: tail' =>
        match Atoi v with
        | .error err => .ret (none, some (.Wrap "parse shard: " err))
        | .ok shard =>
          if shard < 0 then .ret (none, some (.New "shard should be >= 0"))
          else .next tail' { options with Shard := shard }
    else if ToLower arg = "--replica" then
      match tail with
      | [] =>
        if allowEmptyValue then .ret (some options, none)
        else .ret (none, some (.New "missing replica value"))
      | v :: tail' =>
        match Atoi v with
        | .error err => .ret (none, some (.Wrap "parse replica: " err))
        | .ok replica =>
          if replica ≤ 0 then .ret (none, some (.New "replica should be > 0"))
          else .next tail' { options with Replica := replica }
    else if ToLower arg = "--nodes" then
      match tail with
      | [] =>
        if allowEmptyValue then .ret (some options, none)
        else .ret (none, some (.New "missing replica value"))
      | v :: tail' =>
        if HasPrefix v "-" then .ret (none, some (.New "nodes should NOT start with '-'"))
        else
          let nodes := Split (TrimSpace v) ','
          .next tail' { options with Nodes := some (appendNodes nodes []) }
    else if ToLower arg = "--type" then
      match tail with
      | [] =>
        if allowEmptyValue then .ret (some options, none)
        else .ret (none, some (.New "missing replica value"))
      | _ :: tail' =>
        let typ := ToLower (args.headD "")
        if typ ≠ "pending" ∧ typ ≠ "history" then
          .ret (none, some (.New "--type must be 'pending' or 'history'"))
        else .next tail' { options with Typ := typ }
    else
      if !HasPrefix arg "--" then .next tail options
      else .ret (none, some (.New ("unknown option '" ++ arg ++ "'")))

/-- The loop of `parseOptions`, from the pass over `rest` with the options `options`. -/
def parseLoop (args : List String) (allowEmptyValue : Bool) (rest : List String)
    (options : resourceOptions) : Result :=
  match _h : step args allowEmptyValue rest options with
  | .ret r => r
  | .next rest' options' => parseLoop args allowEmptyValue rest' options'
termination_by rest.length
decreasing_by
  unfold step at _h
  split at _h
  · cases _h
  · dsimp only at _h
    repeat' split at _h
    all_goals cases _h <;> (simp only [List.length_cons]; omega)

/-- The options before the first pass: `&resourceOptions{Shard: -1}`. -/
def initial : resourceOptions :=
  { Namespace := "", Cluster := "", Shard := -1, Replica := 0, Nodes := none, Typ := "" }

/-- The function `parseOptions` of `cmd/cli/options.go`. -/
def parseOptions (args : List String) (allowEmptyValue : Bool) : Result :=
  parseLoop args allowEmptyValue args initial

/-- A state of the loop of `parseOptions`: the arguments not yet read and the options. -/
abbrev State := List String × resourceOptions

/-- One pass through the loop body leads from the state `s` to the state `t`. -/
def Pass (args : List String) (allowEmptyValue : Bool) (s t : State) : Prop :=
  step args allowEmptyValue s.1 s.2 = .next t.1 t.2

/-- The loop, started in the state `s`, comes to the state `t` after some passes. -/
def Reaches (args : List String) (allowEmptyValue : Bool) (s t : State) : Prop :=
  Relation.ReflTransGen (Pass args allowEmptyValue) s t

/-- Parsing `args` comes to the head of `rest` as the place where an option name is
expected, with the options `options` set so far. -/
def ParsingAt (args : List String) (allowEmptyValue : Bool) (rest : List String)
    (options : resourceOptions) : Prop :=
  Reaches args allowEmptyValue (args, initial) (rest, options)

end cli

/-! ## `controller/syncer.go` -/

namespace controller

/-- Modelled from the spec: the type `storage.EventType`, declared outside `src/`
(`type` ∈ {Namespace, Cluster, Shard, Node}). -/
inductive EventType where
  | EventNamespace
  | EventCluster
  | EventShard
  | EventNode
deriving DecidableEq, Repr

/-- Modelled from the spec: the type `storage.Command`, declared outside `src/`
(`command` ∈ {Create, Update, Remove}). -/
inductive Command where
  | CommandCreate
  | CommandUpdate
  | CommandRemove
deriving DecidableEq, Repr

/-- Modelled from the spec: the record `storage.Event`, declared outside `src/`; `Typ` is
its field `Type`. -/
structure Event where
  Namespace : String
  Cluster : String
  Shard : Int
  NodeID : String
  Typ : EventType
  Command : Command
deriving DecidableEq, Repr

/-- Modelled from the spec: `metadata.NodeInfo`, declared outside `src/`, with the fields
that `syncer.go` reads. -/
structure NodeInfo where
  ID : String
  Address : String
deriving DecidableEq, Repr

/-- Modelled from the spec: `metadata.Shard`, declared outside `src/`, with the field that
`syncer.go` reads. -/
structure Shard where
  Nodes : List NodeInfo
deriving DecidableEq, Repr

/-- Modelled from the spec: `metadata.Cluster`, declared outside `src/`, with the fields
that `syncer.go` reads. -/
structure Cluster where
  Version : Int
  Shards : List Shard
deriving DecidableEq, Repr

/-- An argument of a command sent to a data node. -/
inductive Arg where
  | str (s : String)
  | int (n : Int)
deriving DecidableEq, Repr

/-- A call that leaves the controller: a read of the storage, the opening of a connection
to a data node, a command sent over the connection to the data node at `addr`. -/
inductive Call where
  | GetClusterInfo (ns cluster : String)
  | NewRedisClient (addr : String)
  | Do (addr : String) (args : List Arg)
deriving DecidableEq, Repr

/-- A call together with the error it returned (`none` for nil). -/
structure Entry where
  call : Call
  err : Option Error

/-- The collaborators of the syncer, none of them under `src/`: the method
`Cluster.ToSlotString`, the storage, `util.NewRedisClient` and the connections it opens.
The answer to a call may depend on all the calls made before it, which is what the `log`
argument holds. -/
structure Env where
  ToSlotString : Cluster → Except Error String
  GetClusterInfo : (log : List Entry) → (ns cluster : String) → Except Error Cluster
  NewRedisClient : (log : List Entry) → (addr : String) → Option Error
  Do : (log : List Entry) → (addr : String) → (args : List Arg) → Option Error

/-- The call `syncer.storage.GetClusterInfo(ns, cluster)`, recorded in the log. -/
def getClusterInfo (env : Env) (ns cluster : String) (log : List Entry) :
    Except Error Cluster × List Entry :=
  match env.GetClusterInfo log ns cluster with
  | .error err => (.error err, log ++ [⟨.GetClusterInfo ns cluster, some err⟩])
  | .ok c => (.ok c, log ++ [⟨.GetClusterInfo ns cluster, none⟩])

/-- The call `util.NewRedisClient(addr)`, recorded in the log. -/
def newRedisClient (env : Env) (addr : String) (log : List Entry) :
    Option Error × List Entry :=
  (env.NewRedisClient log addr, log ++ [⟨.NewRedisClient addr, env.NewRedisClient log addr⟩])

/-- The call `cli.Do(ctx, args...).Err()` on the connection to `addr`, recorded in the log. -/
def doErr (env : Env) (addr : String) (args : List Arg) (log : List Entry) :
    Option Error × List Entry :=
  (env.Do log addr args, log ++ [⟨.Do addr args, env.Do log addr args⟩])

/-- The arguments of `cli.Do(ctx, "CLUSTERX", "setnodeid", node.ID)`. -/
def setnodeid (node : NodeInfo) : List Arg :=
  [.str "CLUSTERX", .str "setnodeid", .str node.ID]

/-- The arguments of `cli.Do(ctx, "CLUSTERX", "setnodes", clusterSlotsStr, version)`. -/
def setnodes (clusterSlotsStr : String) (version : Int) : List Arg :=
  [.str "CLUSTERX", .str "setnodes", .str clusterSlotsStr, .int version]

/-- The function `syncClusterInfoToNode`: its error and the log after it. -/
def syncClusterInfoToNode (env : Env) (node : NodeInfo) (clusterSlotsStr : String)
    (version : Int) (log : List Entry) : Option Error × List Entry :=
  match newRedisClient env node.Address log with
  | (some err, log1) => (some (.Wrap ("addr: " ++ node.Address ++ ", dail: ") err), log1)
  | (none, log1) =>
    match doErr env node.Address (setnodeid node) log1 with
    | (some err, log2) =>
      (some (.Wrap ("addr: " ++ node.Address ++ ", set node id: ") err), log2)
    | (none, log2) =>
      match doErr env node.Address (setnodes clusterSlotsStr version) log2 with
      | (some err, log3) =>
        (some (.Wrap ("addr: " ++ node.Address ++ ", set nodes: ") err), log3)
      | (none, log3) => (none, log3)

/-- The inner loop `for _, node := range shard.Nodes` of `syncClusterInfoToAllNodes`. -/
def syncNodes (env : Env) (clusterSlotsStr : String) (version : Int) :
    List NodeInfo → List Error → List Entry → List Error × List Entry
  | [], errs, log => (errs, log)
  | node :: nodes, errs, log =>
    match syncClusterInfoToNode env node clusterSlotsStr version log with
    | (some err, log') => syncNodes env clusterSlotsStr version nodes (errs ++ [err]) log'
    | (none, log') => syncNodes env clusterSlotsStr version nodes errs log'

/-- The outer loop `for _, shard := range cluster.Shards` of `syncClusterInfoToAllNodes`. -/
def syncShards (env : Env) (clusterSlotsStr : String) (version : Int) :
    List Shard → List Error → List Entry → List Error × List Entry
  | [], errs, log => (errs, log)
  | shard :: shards, errs, log =>
    match syncNodes env clusterSlotsStr version shard.Nodes errs log with
    | (errs', log') => syncShards env clusterSlotsStr version shards errs' log'

/-- The function `syncClusterInfoToAllNodes`: its error and the log after it. The slice
`errs` is nil exactly when nothing was appended to it. -/
def syncClusterInfoToAllNodes (env : Env) (cluster : Cluster) (log : List Entry) :
    Option Error × List Entry :=
  match env.ToSlotString cluster with
  | .error err => (some err, log)
  | .ok clusterSlotsStr =>
    match syncShards env clusterSlotsStr cluster.Version cluster.Shards [] log with
    | ([], log') => (none, log')
    | (err :: errs, log') => (some (.Batch (err :: errs)), log')

/-- The method `Syncer.handleClusterEvent`. -/
def handleClusterEvent (env : Env) (event : Event) (log : List Entry) :
    Option Error × List Entry :=
  if event.Command ≠ .CommandRemove then
    match getClusterInfo env event.Namespace event.Cluster log with
    | (.error err, log') => (some (.Wrap "failed to get cluster: " err), log')
    | (.ok cluster, log') => syncClusterInfoToAllNodes env cluster log'
  else (none, log)

/-- The method `Syncer.handleEvent`. -/
def handleEvent (env : Env) (event : Event) (log : List Entry) : Option Error × List Entry :=
  match event.Typ with
  | .EventCluster | .EventShard | .EventNode => handleClusterEvent env event log
  | _ => (none, log)

/-! ### What the log shows, and the sync of a list of nodes in the words of the spec -/

/-- The commands sent to data nodes among the entries `log`, in the order they were sent,
each with the address it was sent to. -/
def commands : List Entry → List (String × List Arg)
  | [] => []
  | ⟨.Do addr args, _⟩ :: log => (addr, args) :: commands log
  | _ :: log => commands log

/-- The addresses that a connection was opened to among the entries `log`, in order. -/
def dialled : List Entry → List String
  | [] => []
  | ⟨.NewRedisClient addr, _⟩ :: log => addr :: dialled log
  | _ :: log => dialled log

/-- The nodes of a cluster, in shard order and then node order. -/
def allNodes (cluster : Cluster) : List NodeInfo :=
  (cluster.Shards.map Shard.Nodes).flatten

/-- The sync attempted on every node of the list `nodes`, one after the other, whether or
not the ones before failed: what each attempt returned, and the log after the last. -/
def attempts (env : Env) (clusterSlotsStr : String) (version : Int) :
    List NodeInfo → List Entry → List (Option Error) × List Entry
  | [], log => ([], log)
  | node :: nodes, log =>
    let r := syncClusterInfoToNode env node clusterSlotsStr version log
    let rs := attempts env clusterSlotsStr version nodes r.2
    (r.1 :: rs.1, rs.2)

/-- The errors among what the attempts returned, in order: one for every failed node. -/
def failures : List (Option Error) → List Error
  | [] => []
  | some err :: rs => err :: failures rs
  | none :: rs => failures rs

/-! ### A cluster of two shards and two worlds around it -/

/-- A cluster of two shards, the first with two nodes, the second with one. -/
def cluster3 : Cluster :=
  { Version := 7,
    Shards := [⟨[⟨"id-a", "a:1"⟩, ⟨"id-b", "b:2"⟩]⟩, ⟨[⟨"id-c", "c:3"⟩]⟩] }

/-- A world in which the storage holds `cluster3`, its slots string is `"slots"`, and
every data node answers, except that no connection to `b:2` can be opened. -/
def envDown : Env :=
  { ToSlotString := fun _ => .ok "slots"
    GetClusterInfo := fun _ _ _ => .ok cluster3
    NewRedisClient := fun _ addr => if addr = "b:2" then some (.New "refused") else none
    Do := fun _ _ _ => none }

/-- A world in which `ToSlotString` fails and the storage cannot be read. -/
def envBroken : Env :=
  { ToSlotString := fun _ => .error (.New "no slots")
    GetClusterInfo := fun _ _ _ => .error (.New "no storage")
    NewRedisClient := fun _ _ => none
    Do := fun _ _ _ => none }

end controller

/-! ## The loop of `parseOptions` -/

namespace cli

open strings strconv

/-- The body of the loop moves forward: the arguments left for the next pass are fewer. -/
theorem step_next_length {args : List String} {allowEmptyValue : Bool} {rest : List String}
    {options : resourceOptions} {rest' : List String} {options' : resourceOptions}
    (h : step args allowEmptyValue rest options = .next rest' options') :
    rest'.length < rest.length := by
  unfold step at h
  split at h
  · cases h
  · dsimp only at h
    repeat' split at h
    all_goals cases h <;> (simp only [List.length_cons]; omega)

/-- A pass of the loop body that returns ends the loop with what it returns. -/
theorem parseLoop_ret {args : List String} {allowEmptyValue : Bool} {rest : List String}
    {options : resourceOptions} {r : Result}
    (h : step args allowEmptyValue rest options = .ret r) :
    parseLoop args allowEmptyValue rest options = r := by
  rw [parseLoop]
  split
  · rename_i r' h'
    rw [h] at h'
    cases h'
    rfl
  · rename_i rest' options' h'
    rw [h] at h'
    cases h'

/-- A pass of the loop body that does not return is followed by the rest of the loop. -/
theorem parseLoop_next {args : List String} {allowEmptyValue : Bool} {rest : List String}
    {options : resourceOptions} {rest' : List String} {options' : resourceOptions}
    (h : step args allowEmptyValue rest options = .next rest' options') :
    parseLoop args allowEmptyValue rest options =
      parseLoop args allowEmptyValue rest' options' := by
  rw [parseLoop]
  split
  · rename_i r' h'
    rw [h] at h'
    cases h'
  · rename_i rest'' options'' h'
    rw [h] at h'
    cases h'
    rfl

/-- The loop returns the same from every state it passes through. -/
theorem parseLoop_of_reaches {args : List String} {allowEmptyValue : Bool} {s t : State}
    (h : Reaches args allowEmptyValue s t) :
    parseLoop args allowEmptyValue s.1 s.2 = parseLoop args allowEmptyValue t.1 t.2 := by
  induction h with
  | refl => rfl
  | tail _ hstep ih => exact ih.trans (parseLoop_next hstep)

/-- What `parseOptions` returns is what the loop returns from any state that parsing
comes to. -/
theorem parseOptions_of_parsingAt {args : List String} {allowEmptyValue : Bool}
    {rest : List String} {options : resourceOptions}
    (h : ParsingAt args allowEmptyValue rest options) :
    parseOptions args allowEmptyValue = parseLoop args allowEmptyValue rest options :=
  parseLoop_of_reaches h

/-- Parsing starts at the first argument with the initial options. -/
theorem parsingAt_start (args : List String) (allowEmptyValue : Bool) :
    ParsingAt args allowEmptyValue args initial :=
  Relation.ReflTransGen.refl

/-- Parsing goes on by one pass of the loop body. -/
theorem parsingAt_next {args : List String} {allowEmptyValue : Bool} {rest : List String}
    {options : resourceOptions} {rest' : List String} {options' : resourceOptions}
    (h : ParsingAt args allowEmptyValue rest options)
    (hstep : step args allowEmptyValue rest options = .next rest' options') :
    ParsingAt args allowEmptyValue rest' options' :=
  Relation.ReflTransGen.tail h hstep

/-! ### `--type` reads `args[0]` (claims C4, C7, C9) and `--shard` without a value
returns the options with the error (claim C10) -/

/-- C4: on the arguments `--type v` the `--type` case lowers `args[0]`, which is `--type`
itself, instead of the value `v`, and `parseOptions` fails with
"--type must be 'pending' or 'history'", whatever `v` and `allowEmptyValue` are: so it
does on `--type pending`. -/
theorem parseOptions_type_value_rejected (v : String) (allowEmptyValue : Bool) :
    parseOptions ["--type", v] allowEmptyValue =
        (none, some (.New "--type must be 'pending' or 'history'")) ∧
      parseOptions ["--type", "pending"] allowEmptyValue =
        (none, some (.New "--type must be 'pending' or 'history'")) := by
  cases allowEmptyValue <;> exact ⟨parseLoop_ret rfl, parseLoop_ret rfl⟩

/-- C7: on the arguments `pending --type --bogus` the unknown token `--bogus`, read as
the value of `--type`, is never looked at: `args[0]` is `pending`, and `parseOptions`
succeeds with `Type = "pending"`. -/
theorem parseOptions_unknown_flag_accepted :
    parseOptions ["pending", "--type", "--bogus"] false =
      (some { initial with Typ := "pending" }, none) :=
  calc parseOptions ["pending", "--type", "--bogus"] false
      = parseLoop ["pending", "--type", "--bogus"] false ["--type", "--bogus"] initial :=
        parseLoop_next rfl
    _ = parseLoop ["pending", "--type", "--bogus"] false []
          { initial with Typ := "pending" } := parseLoop_next rfl
    _ = (some { initial with Typ := "pending" }, none) := parseLoop_ret rfl

/-- C9: the token `pending` of the arguments `pending --type x` does not begin with `--`
and stands where an option name is expected, yet removing it changes the result: with
it `parseOptions` succeeds with `Type = "pending"`, without it `parseOptions` fails. -/
theorem parseOptions_removing_first_token_changes_result :
    parseOptions ["pending", "--type", "x"] false =
        (some { initial with Typ := "pending" }, none) ∧
      parseOptions ["--type", "x"] false =
        (none, some (.New "--type must be 'pending' or 'history'")) :=
  ⟨calc parseOptions ["pending", "--type", "x"] false
        = parseLoop ["pending", "--type", "x"] false ["--type", "x"] initial :=
          parseLoop_next rfl
      _ = parseLoop ["pending", "--type", "x"] false [] { initial with Typ := "pending" } :=
          parseLoop_next rfl
      _ = (some { initial with Typ := "pending" }, none) := parseLoop_ret rfl,
    parseLoop_ret rfl⟩

/-- C10: on the single argument `--shard`, with `allowEmptyValue` false, `parseOptions`
returns a non-nil error together with a non-nil options pointer. -/
theorem parseOptions_missing_shard_returns_both :
    parseOptions ["--shard"] false = (some initial, some (.New "missing shard value")) :=
  parseLoop_ret rfl

/-! ### The loop returns the options of a state it came to -/

/-- A pass that returns options returns the options it was given. -/
theorem step_ret_some {args : List String} {allowEmptyValue : Bool} {rest : List String}
    {options options' : resourceOptions} {e : Option Error}
    (h : step args allowEmptyValue rest options = .ret (some options', e)) :
    options' = options := by
  unfold step at h
  split at h
  · cases h
    rfl
  · dsimp only at h
    repeat' split at h
    all_goals cases h <;> rfl

/-- Options returned by the loop are the options of a state that the loop came to. -/
theorem parseLoop_some {args : List String} {allowEmptyValue : Bool} (rest : List String)
    (options : resourceOptions) :
    ∀ (options' : resourceOptions) (e : Option Error),
      parseLoop args allowEmptyValue rest options = (some options', e) →
      ∃ rest', Reaches args allowEmptyValue (rest, options) (rest', options') := by
  induction rest, options using parseLoop.induct args allowEmptyValue with
  | case1 rest options r hstep =>
    intro options' e h
    rw [parseLoop_ret hstep] at h
    subst h
    rw [step_ret_some hstep]
    exact ⟨rest, Relation.ReflTransGen.refl⟩
  | case2 rest options rest' options1 hstep ih =>
    intro options' e h
    rw [parseLoop_next hstep] at h
    obtain ⟨rest'', hreach⟩ := ih options' e h
    exact ⟨rest'', Relation.ReflTransGen.head (show Pass _ _ (rest, options) (rest', options1)
      from hstep) hreach⟩

/-- Each pass leaves fewer arguments, so the loop never comes back to a state. -/
theorem reaches_length {args : List String} {allowEmptyValue : Bool} {s t : State}
    (h : Reaches args allowEmptyValue s t) : t.1.length ≤ s.1.length := by
  induction h with
  | refl => exact le_rfl
  | tail _ hstep ih => exact le_trans (le_of_lt (step_next_length hstep)) ih

/-! ### `--shard` and `--replica` (claim C5) -/

/-- The pass over `--shard` followed by the token `v`. -/
theorem step_shard {args : List String} {allowEmptyValue : Bool} {a v : String}
    {post : List String} {o : resourceOptions} (ha : ToLower a = "--shard") :
    step args allowEmptyValue (a :: v :: post) o =
      match Atoi v with
      | .error err => .ret (none, some (.Wrap "parse shard: " err))
      | .ok shard =>
        if shard < 0 then .ret (none, some (.New "shard should be >= 0"))
        else .next post { o with Shard := shard } := by
  simp [step, ha]

/-- The pass over `--replica` followed by the token `v`. -/
theorem step_replica {args : List String} {allowEmptyValue : Bool} {a v : String}
    {post : List String} {o : resourceOptions} (ha : ToLower a = "--replica") :
    step args allowEmptyValue (a :: v :: post) o =
      match Atoi v with
      | .error err => .ret (none, some (.Wrap "parse replica: " err))
      | .ok replica =>
        if replica ≤ 0 then .ret (none, some (.New "replica should be > 0"))
        else .next post { o with Replica := replica } := by
  simp [step, ha]

/-- C5: when parsing comes to an option name `a` followed by a token `v`, then for `a`
being `--shard` (in any case of letters): if `v` is not a decimal integer that `Atoi`
reads, or is an integer below 0, `parseOptions` returns an error and no options; if `v`
is an integer `n` with `0 ≤ n`, the loop goes on behind `v` with `Shard` set to `n`.
The same for `--replica`, with the bound `0 < n`, and `Replica`. -/
theorem parseOptions_shard_replica {args : List String} {allowEmptyValue : Bool}
    {a v : String} {post : List String} {o : resourceOptions}
    (hat : ParsingAt args allowEmptyValue (a :: v :: post) o) :
    (ToLower a = "--shard" →
      ((∀ n, Atoi v = .ok n → n < 0) →
        ∃ err, parseOptions args allowEmptyValue = (none, some err)) ∧
      (∀ n, Atoi v = .ok n → 0 ≤ n →
        ParsingAt args allowEmptyValue post { o with Shard := n })) ∧
    (ToLower a = "--replica" →
      ((∀ n, Atoi v = .ok n → n ≤ 0) →
        ∃ err, parseOptions args allowEmptyValue = (none, some err)) ∧
      (∀ n, Atoi v = .ok n → 0 < n →
        ParsingAt args allowEmptyValue post { o with Replica := n })) := by
  refine ⟨fun ha => ⟨fun hbad => ?_, fun n hn h0 => ?_⟩,
    fun ha => ⟨fun hbad => ?_, fun n hn h0 => ?_⟩⟩
  · rw [parseOptions_of_parsingAt hat]
    cases hv : Atoi v with
    | error err =>
      exact ⟨_, parseLoop_ret (by rw [step_shard ha, hv])⟩
    | ok n =>
      exact ⟨.New "shard should be >= 0",
        parseLoop_ret (by rw [step_shard ha, hv]; simp [hbad n hv])⟩
  · refine parsingAt_next hat ?_
    rw [step_shard ha, hn]
    simp [not_lt.mpr h0]
  · rw [parseOptions_of_parsingAt hat]
    cases hv : Atoi v with
    | error err =>
      exact ⟨_, parseLoop_ret (by rw [step_replica ha, hv])⟩
    | ok n =>
      exact ⟨.New "replica should be > 0",
        parseLoop_ret (by rw [step_replica ha, hv]; simp [hbad n hv])⟩
  · refine parsingAt_next hat ?_
    rw [step_replica ha, hn]
    simp [not_le.mpr h0]

/-- C5 on `--shard -1`, `--replica 0`, `--shard x`, `--shard 9223372036854775808` (which
does not fit the 64-bit `int`), `--shard 3` and `--replica 2`: the first four fail, the
last two set `Shard` to 3 and `Replica` to 2. -/
theorem parseOptions_shard_replica_witness :
    (∃ err, parseOptions ["--shard", "-1"] false = (none, some err)) ∧
    (∃ err, parseOptions ["--replica", "0"] false = (none, some err)) ∧
    (∃ err, parseOptions ["--shard", "x"] false = (none, some err)) ∧
    (∃ err, parseOptions ["--shard", "9223372036854775808"] false = (none, some err)) ∧
    ParsingAt ["--shard", "3"] false [] { initial with Shard := 3 } ∧
    ParsingAt ["--replica", "2"] false [] { initial with Replica := 2 } :=
  ⟨((parseOptions_shard_replica (parsingAt_start ["--shard", "-1"] false)).1 rfl).1
      (fun n hn => by cases hn; decide),
    ((parseOptions_shard_replica (parsingAt_start ["--replica", "0"] false)).2 rfl).1
      (fun n hn => by cases hn; decide),
    ((parseOptions_shard_replica (parsingAt_start ["--shard", "x"] false)).1 rfl).1
      (fun n hn => by cases hn),
    ((parseOptions_shard_replica
      (parsingAt_start ["--shard", "9223372036854775808"] false)).1 rfl).1
      (fun n hn => by cases hn),
    ((parseOptions_shard_replica (parsingAt_start ["--shard", "3"] false)).1 rfl).2 3 rfl
      (by decide),
    ((parseOptions_shard_replica (parsingAt_start ["--replica", "2"] false)).2 rfl).2 2 rfl
      (by decide)⟩

/-! ### `--namespace` (claim C6) -/

/-- A pass of the loop body either leaves `Namespace` as it is or sets it to a value
without a leading `-`. -/
theorem step_namespace_inv {args : List String} {allowEmptyValue : Bool}
    {rest rest' : List String} {options options' : resourceOptions}
    (h : step args allowEmptyValue rest options = .next rest' options')
    (hinv : HasPrefix options.Namespace "-" = false) :
    HasPrefix options'.Namespace "-" = false := by
  unfold step at h
  split at h
  · cases h
  · dsimp only at h
    repeat' split at h
    all_goals cases h <;> simp_all

/-- In every state that the loop comes to, `Namespace` has no leading `-` whenever it
had none at the start. -/
theorem reaches_namespace_inv {args : List String} {allowEmptyValue : Bool} {s t : State}
    (h : Reaches args allowEmptyValue s t) (hinv : HasPrefix s.2.Namespace "-" = false) :
    HasPrefix t.2.Namespace "-" = false := by
  induction h with
  | refl => exact hinv
  | tail _ hstep ih => exact step_namespace_inv hstep ih

/-- C6, the claim refuted: on the arguments `--namespace ""` parsing comes to
`--namespace`, its value is the empty string, and `parseOptions` succeeds, with the
empty string as `Namespace`. -/
theorem parseOptions_empty_namespace_accepted :
    ParsingAt ["--namespace", ""] false ["--namespace", ""] initial ∧
      parseOptions ["--namespace", ""] false = (some initial, none) ∧
      initial.Namespace = "" :=
  ⟨parsingAt_start _ _,
    calc parseOptions ["--namespace", ""] false
        = parseLoop ["--namespace", ""] false [] initial := parseLoop_next rfl
      _ = (some initial, none) := parseLoop_ret rfl,
    rfl⟩

/-- C6, amended: when parsing comes to `--namespace` (in any case of letters),
`parseOptions` returns an error and no options if the value is missing or begins with
`-`, and otherwise goes on behind the value with `Namespace` set to it (the empty string
included); and whenever `parseOptions` succeeds, the resulting `Namespace` has no
leading `-`. -/
theorem parseOptions_namespace {args : List String} {allowEmptyValue : Bool}
    {a : String} {tail : List String} {o : resourceOptions}
    (hat : ParsingAt args allowEmptyValue (a :: tail) o)
    (ha : ToLower a = "--namespace") :
    ((tail = [] ∨ ∃ v post, tail = v :: post ∧ HasPrefix v "-" = true) →
        ∃ err, parseOptions args allowEmptyValue = (none, some err)) ∧
      (∀ v post, tail = v :: post → HasPrefix v "-" = false →
        ParsingAt args allowEmptyValue post { o with Namespace := v }) ∧
      (∀ o', parseOptions args allowEmptyValue = (some o', none) →
        HasPrefix o'.Namespace "-" = false) := by
  refine ⟨fun hbad => ?_, fun v post htail hv => ?_, fun o' hok => ?_⟩
  · rw [parseOptions_of_parsingAt hat]
    rcases hbad with rfl | ⟨v, post, rfl, hv⟩
    · exact ⟨.New "missing namespace value", parseLoop_ret (by simp [step, ha])⟩
    · exact ⟨.New "namespace should NOT start with '-'",
        parseLoop_ret (by simp [step, ha, hv])⟩
  · subst htail
    exact parsingAt_next hat (by simp [step, ha, hv])
  · obtain ⟨rest', hreach⟩ := parseLoop_some args initial o' none hok
    exact reaches_namespace_inv hreach rfl

/-- C6, amended, on `--namespace`, `--namespace -x` and `--namespace ns`: the first two
fail, the last succeeds with a `Namespace` without a leading `-`. -/
theorem parseOptions_namespace_witness :
    (∃ err, parseOptions ["--namespace"] true = (none, some err)) ∧
    (∃ err, parseOptions ["--namespace", "-x"] false = (none, some err)) ∧
    ParsingAt ["--namespace", "ns"] false [] { initial with Namespace := "ns" } ∧
    HasPrefix ({ initial with Namespace := "ns" } : resourceOptions).Namespace "-" = false :=
  ⟨(parseOptions_namespace (parsingAt_start ["--namespace"] true) rfl).1 (Or.inl rfl),
    (parseOptions_namespace (parsingAt_start ["--namespace", "-x"] false) rfl).1
      (Or.inr ⟨"-x", [], rfl, rfl⟩),
    (parseOptions_namespace (parsingAt_start ["--namespace", "ns"] false) rfl).2.1
      "ns" [] rfl rfl,
    (parseOptions_namespace (parsingAt_start ["--namespace", "ns"] false) rfl).2.2 _
      (calc parseOptions ["--namespace", "ns"] false
          = parseLoop ["--namespace", "ns"] false [] { initial with Namespace := "ns" } :=
            parseLoop_next rfl
        _ = (some { initial with Namespace := "ns" }, none) := parseLoop_ret rfl)⟩

/-! ### `--nodes` (claim C8) -/

/-- A string has length 0 exactly when it is the empty string. -/
theorem length_eq_zero_iff (s : String) : s.length = 0 ↔ s = "" := by
  cases s with
  | mk l =>
    constructor
    · intro h
      have hl : l = [] := List.length_eq_zero.mp h
      subst hl
      rfl
    · intro h
      rw [h]
      rfl

/-- The loop over the pieces appends, in their order, the pieces that are not empty. -/
theorem appendNodes_eq_filter (nodes acc : List String) :
    appendNodes nodes acc = acc ++ nodes.filter (fun node => decide (node ≠ "")) := by
  induction nodes generalizing acc with
  | nil => simp [appendNodes]
  | cons node nodes ih =>
    by_cases h : node = ""
    · have hlen : node.length = 0 := (length_eq_zero_iff node).mpr h
      rw [appendNodes, if_pos hlen, ih, List.filter_cons_of_neg (by simpa using h)]
    · have hlen : ¬ node.length = 0 := fun hl => h ((length_eq_zero_iff node).mp hl)
      rw [appendNodes, if_neg hlen, ih, List.filter_cons_of_pos (by simpa using h),
        List.append_assoc, List.singleton_append]

/-- The pass over `--nodes` followed by the token `v`. -/
theorem step_nodes {args : List String} {allowEmptyValue : Bool} {a v : String}
    {post : List String} {o : resourceOptions} (ha : ToLower a = "--nodes") :
    step args allowEmptyValue (a :: v :: post) o =
      if HasPrefix v "-" then .ret (none, some (.New "nodes should NOT start with '-'"))
      else .next post { o with Nodes := some (appendNodes (Split (TrimSpace v) ',') []) } := by
  simp [step, ha]

/-- A pass of the loop body leaves `Nodes` as it is, unless it is the pass over `--nodes`
followed by a value. -/
theorem step_nodes_unchanged {args : List String} {allowEmptyValue : Bool}
    {rest rest' : List String} {options options' : resourceOptions}
    (h : step args allowEmptyValue rest options = .next rest' options') :
    (∃ a v post, rest = a :: v :: post ∧ ToLower a = "--nodes") ∨
      options'.Nodes = options.Nodes := by
  unfold step at h
  split at h
  · cases h
  · dsimp only at h
    rename_i arg tail
    by_cases hn : ToLower arg = "--nodes"
    · cases tail with
      | nil =>
        simp [hn] at h
        split at h <;> cases h
      | cons v post => exact Or.inl ⟨arg, v, post, rfl, hn⟩
    · right
      repeat' split at h
      all_goals cases h <;> rfl

/-- C8: when parsing comes to `--nodes` (in any case of letters) followed by the value
`v`, and no `--nodes` followed by a value is parsed after this one, then a successful
`parseOptions` returns as `Nodes` the pieces, other than the empty string, of the
white-space-trimmed `v` split at the commas, in their order; so no element of `Nodes`
is the empty string. -/
theorem parseOptions_nodes {args : List String} {allowEmptyValue : Bool} {a v : String}
    {post : List String} {o1 o : resourceOptions}
    (hat : ParsingAt args allowEmptyValue (a :: v :: post) o1)
    (ha : ToLower a = "--nodes")
    (hlast : ∀ a' v' post' o', ToLower a' = "--nodes" →
      Reaches args allowEmptyValue (a :: v :: post, o1) (a' :: v' :: post', o') →
      a' :: v' :: post' = a :: v :: post)
    (hok : parseOptions args allowEmptyValue = (some o, none)) :
    o.Nodes = some ((Split (TrimSpace v) ',').filter (fun piece => decide (piece ≠ ""))) ∧
      ∀ nodes, o.Nodes = some nodes → "" ∉ nodes := by
  have hstep := @step_nodes args allowEmptyValue a v post o1 ha
  rw [parseOptions_of_parsingAt hat] at hok
  by_cases hv : HasPrefix v "-" = true
  · rw [if_pos hv] at hstep
    rw [parseLoop_ret hstep] at hok
    cases hok
  · rw [if_neg hv] at hstep
    rw [parseLoop_next hstep] at hok
    obtain ⟨rest', hreach⟩ := parseLoop_some _ _ o none hok
    have key : ∀ t : State,
        Reaches args allowEmptyValue
          (post, { o1 with Nodes := some (appendNodes (Split (TrimSpace v) ',') []) }) t →
        t.2.Nodes = some (appendNodes (Split (TrimSpace v) ',') []) := by
      intro t ht
      induction ht with
      | refl => rfl
      | @tail t u htreach hpass ih =>
        rcases step_nodes_unchanged hpass with ⟨a', v', post', hrest, ha'⟩ | hsame
        · have hfrom : Reaches args allowEmptyValue (a :: v :: post, o1) (a' :: v' :: post', t.2) := by
            rw [← hrest]
            exact Relation.ReflTransGen.head (show Pass _ _ (a :: v :: post, o1) (post,
              { o1 with Nodes := some (appendNodes (Split (TrimSpace v) ',') []) }) from hstep)
              htreach
          have heq := hlast a' v' post' t.2 ha' hfrom
          have hlen := reaches_length htreach
          rw [hrest, heq] at hlen
          simp only [List.length_cons] at hlen
          omega
        · exact hsame.trans ih
    have hnodes := key _ hreach
    simp only [appendNodes_eq_filter, List.nil_append] at hnodes
    refine ⟨hnodes, fun nodes hn => ?_⟩
    rw [hnodes] at hn
    cases hn
    simp

/-- C8 on the arguments `--nodes "a:1,,b:2,"`: `Nodes` is `["a:1", "b:2"]`. -/
theorem parseOptions_nodes_witness :
    ({ initial with Nodes := some ["a:1", "b:2"] } : resourceOptions).Nodes =
        some ((Split (TrimSpace "a:1,,b:2,") ',').filter (fun piece => decide (piece ≠ ""))) ∧
      ∀ nodes, ({ initial with Nodes := some ["a:1", "b:2"] } : resourceOptions).Nodes =
        some nodes → "" ∉ nodes :=
  @parseOptions_nodes ["--nodes", "a:1,,b:2,"] false "--nodes" "a:1,,b:2," [] initial
    { initial with Nodes := some ["a:1", "b:2"] } (parsingAt_start _ _) rfl
    (fun a' v' post' o' _ hreach => by
      have hlen := reaches_length hreach
      have h2 : post' = [] := by
        cases post' with
        | nil => rfl
        | cons x xs => simp at hlen
      subst h2
      rcases Relation.ReflTransGen.cases_head hreach with heq | ⟨c, hpass, hrest⟩
      · cases heq
        rfl
      · have hl := reaches_length hrest
        have hc := step_next_length hpass
        simp at hl hc
        omega)
    (calc parseOptions ["--nodes", "a:1,,b:2,"] false
        = parseLoop ["--nodes", "a:1,,b:2,"] false []
            { initial with Nodes := some ["a:1", "b:2"] } := parseLoop_next rfl
      _ = (some { initial with Nodes := some ["a:1", "b:2"] }, none) := parseLoop_ret rfl)

/-! ### What holds around the `--type` case and the `--shard` return -/

/-- The pass over `--type` followed by a token: the token is skipped unread, and
`args[0]` is what is checked and stored. -/
theorem step_type {args : List String} {allowEmptyValue : Bool} {a v : String}
    {post : List String} {o : resourceOptions} (ha : ToLower a = "--type") :
    step args allowEmptyValue (a :: v :: post) o =
      if ToLower (args.headD "") ≠ "pending" ∧ ToLower (args.headD "") ≠ "history" then
        .ret (none, some (.New "--type must be 'pending' or 'history'"))
      else .next post { o with Typ := ToLower (args.headD "") } := by
  simp [step, ha]

/-- An unknown token beginning with `--` that stands where an option name is expected
makes `parseOptions` fail with `unknown option '<token>'` and no options. -/
theorem parseOptions_unknown_option {args : List String} {allowEmptyValue : Bool}
    {a : String} {tail : List String} {o : resourceOptions}
    (hat : ParsingAt args allowEmptyValue (a :: tail) o)
    (hknown : ToLower a ∉
      ["--namespace", "--cluster", "--shard", "--replica", "--nodes", "--type"])
    (hflag : HasPrefix a "--" = true) :
    parseOptions args allowEmptyValue =
      (none, some (.New ("unknown option '" ++ a ++ "'"))) := by
  rw [parseOptions_of_parsingAt hat]
  simp only [List.mem_cons, List.mem_singleton, List.not_mem_nil, not_or, or_false] at hknown
  obtain ⟨h1, h2, h3, h4, h5, h6⟩ := hknown
  exact parseLoop_ret (by simp [step, h1, h2, h3, h4, h5, h6, hflag])

/-- The only pass that returns an error together with options is the pass over a last
`--shard` with `allowEmptyValue` false. -/
theorem step_ret_both {args : List String} {allowEmptyValue : Bool} {rest : List String}
    {options options' : resourceOptions} {err : Error}
    (h : step args allowEmptyValue rest options = .ret (some options', some err)) :
    err = .New "missing shard value" ∧ allowEmptyValue = false ∧
      ∃ a, rest = [a] ∧ ToLower a = "--shard" := by
  unfold step at h
  split at h
  · cases h
  · dsimp only at h
    repeat' split at h
    all_goals cases h
    exact ⟨rfl, by simp_all, _, rfl, by assumption⟩

/-- Whenever `parseOptions` returns an error together with options, the error is
`missing shard value`. -/
theorem parseOptions_options_with_error {args : List String} {allowEmptyValue : Bool}
    {o : resourceOptions} {err : Error}
    (h : parseOptions args allowEmptyValue = (some o, some err)) :
    err = .New "missing shard value" := by
  have key : ∀ (rest : List String) (o0 : resourceOptions),
      parseLoop args allowEmptyValue rest o0 = (some o, some err) →
      err = .New "missing shard value" := by
    intro rest o0
    induction rest, o0 using parseLoop.induct args allowEmptyValue with
    | case1 rest options r hstep =>
      intro h
      rw [parseLoop_ret hstep] at h
      subst h
      exact (step_ret_both hstep).1
    | case2 rest options rest' options1 hstep ih =>
      intro h
      rw [parseLoop_next hstep] at h
      exact ih h
  exact key args initial h

/-- The code of the rune of a small code `n` is `n`. -/
theorem toNat_ofNat_of_lt {n : Nat} (h : n < 0xd800) : (Char.ofNat n).toNat = n := by
  have hv : n.isValidChar := Or.inl h
  simp [Char.ofNat, hv, Char.toNat, Char.ofNatAux, UInt32.toNat]

/-- A rune whose lower case is `-` is `-`. -/
theorem toLowerRune_dash {c : Char} (h : toLowerRune c = '-') : c = '-' := by
  unfold toLowerRune at h
  split at h
  · rename_i hu
    obtain ⟨h1, h2⟩ := hu
    rw [Char.le_def] at h1 h2
    have hb : 65 ≤ c.toNat ∧ c.toNat ≤ 90 := ⟨h1, h2⟩
    have h3 : (Char.ofNat (c.toNat + 32)).toNat = c.toNat + 32 :=
      toNat_ofNat_of_lt (by omega)
    have h4 := congrArg Char.toNat h
    rw [h3] at h4
    have h5 : ('-' : Char).toNat = 45 := rfl
    omega
  · split at h
    · exact absurd h (by decide)
    · split at h
      · exact absurd h (by decide)
      · exact h

/-- A token whose lower case begins with `--` begins with `--`. -/
theorem hasPrefix_of_toLower {a : String} (h : HasPrefix (ToLower a) "--" = true) :
    HasPrefix a "--" = true := by
  obtain ⟨l⟩ := a
  match l, h with
  | [], h => simp [HasPrefix, ToLower] at h
  | [c], h => simp [HasPrefix, ToLower] at h
  | c1 :: c2 :: l, h =>
    simp [HasPrefix, ToLower] at h ⊢
    exact ⟨(toLowerRune_dash h.1.symm).symm, (toLowerRune_dash h.2.symm).symm⟩

/-- A token that does not begin with `--` and stands where an option name is expected
is skipped: the pass leaves the options as they are. -/
theorem step_skip {args : List String} {allowEmptyValue : Bool} {a : String}
    {tail : List String} {o : resourceOptions} (hflag : HasPrefix a "--" = false) :
    step args allowEmptyValue (a :: tail) o = .next tail o := by
  have hne : ∀ name : String, HasPrefix name "--" = true → ToLower a ≠ name := by
    intro name hname heq
    rw [← heq] at hname
    rw [hasPrefix_of_toLower hname] at hflag
    cases hflag
  simp [step, hne "--namespace" rfl, hne "--cluster" rfl, hne "--shard" rfl,
    hne "--replica" rfl, hne "--nodes" rfl, hne "--type" rfl, hflag]

/-- A list without a token beginning with `--` parses to the options it started from. -/
theorem parseLoop_no_flags {args : List String} {allowEmptyValue : Bool}
    (rest : List String) (o : resourceOptions)
    (h : ∀ a ∈ rest, HasPrefix a "--" = false) :
    parseLoop args allowEmptyValue rest o = (some o, none) := by
  induction rest with
  | nil => exact parseLoop_ret rfl
  | cons a tail ih =>
    rw [parseLoop_next (step_skip (h a (List.mem_cons_self a tail)))]
    exact ih (fun b hb => h b (List.mem_cons_of_mem a hb))

/-- A list without a token beginning with `--` parses successfully to the defaults:
`Shard = -1`, `Replica = 0`, `Namespace`, `Cluster` and `Type` empty, `Nodes` nil. -/
theorem parseOptions_no_flags {args : List String} {allowEmptyValue : Bool}
    (h : ∀ a ∈ args, HasPrefix a "--" = false) :
    parseOptions args allowEmptyValue =
      (some
        { Namespace := "", Cluster := "", Shard := -1, Replica := 0, Nodes := none, Typ := "" },
        none) :=
  parseLoop_no_flags args initial h

end cli

/-! ## The syncer -/

namespace controller

/-! ### `syncClusterInfoToNode` (claim C3) -/

/-- The error and the log after `syncClusterInfoToNode`, in each of the four ways it can
go: the connection cannot be opened; it can, and `setnodeid` fails; `setnodeid`
succeeds and `setnodes` fails; both succeed. -/
theorem syncClusterInfoToNode_cases (env : Env) (node : NodeInfo) (clusterSlotsStr : String)
    (version : Int) (log : List Entry) :
    (∀ err, env.NewRedisClient log node.Address = some err →
      syncClusterInfoToNode env node clusterSlotsStr version log =
        (some (.Wrap ("addr: " ++ node.Address ++ ", dail: ") err),
          log ++ [⟨.NewRedisClient node.Address, some err⟩])) ∧
    (env.NewRedisClient log node.Address = none →
      (∀ err, env.Do (log ++ [⟨.NewRedisClient node.Address, none⟩]) node.Address
          (setnodeid node) = some err →
        syncClusterInfoToNode env node clusterSlotsStr version log =
          (some (.Wrap ("addr: " ++ node.Address ++ ", set node id: ") err),
            log ++ [⟨.NewRedisClient node.Address, none⟩,
              ⟨.Do node.Address (setnodeid node), some err⟩])) ∧
      (env.Do (log ++ [⟨.NewRedisClient node.Address, none⟩]) node.Address
          (setnodeid node) = none →
        (∀ err, env.Do (log ++ [⟨.NewRedisClient node.Address, none⟩,
            ⟨.Do node.Address (setnodeid node), none⟩]) node.Address
            (setnodes clusterSlotsStr version) = some err →
          syncClusterInfoToNode env node clusterSlotsStr version log =
            (some (.Wrap ("addr: " ++ node.Address ++ ", set nodes: ") err),
              log ++ [⟨.NewRedisClient node.Address, none⟩,
                ⟨.Do node.Address (setnodeid node), none⟩,
                ⟨.Do node.Address (setnodes clusterSlotsStr version), some err⟩])) ∧
        (env.Do (log ++ [⟨.NewRedisClient node.Address, none⟩,
            ⟨.Do node.Address (setnodeid node), none⟩]) node.Address
            (setnodes clusterSlotsStr version) = none →
          syncClusterInfoToNode env node clusterSlotsStr version log =
            (none, log ++ [⟨.NewRedisClient node.Address, none⟩,
              ⟨.Do node.Address (setnodeid node), none⟩,
              ⟨.Do node.Address (setnodes clusterSlotsStr version), none⟩])))) := by
  refine ⟨fun err h1 => ?_, fun h1 => ⟨fun err h2 => ?_, fun h2 => ⟨fun err h3 => ?_,
    fun h3 => ?_⟩⟩⟩
  · simp [syncClusterInfoToNode, newRedisClient, h1]
  · simp [syncClusterInfoToNode, newRedisClient, doErr, h1, h2]
  · simp only [List.append_assoc, List.singleton_append, List.cons_append,
      List.nil_append] at h3
    simp [syncClusterInfoToNode, newRedisClient, doErr, h1, h2, h3]
  · simp only [List.append_assoc, List.singleton_append, List.cons_append,
      List.nil_append] at h3
    simp [syncClusterInfoToNode, newRedisClient, doErr, h1, h2, h3]

/-- C3: `syncClusterInfoToNode` adds entries `new` to the log, and they are exactly
these. When the connection to `node.Address` cannot be opened: the failed opening alone,
so no command is sent. When it can: the opening and then the command
`CLUSTERX setnodeid <node.ID>`, alone if it fails, and followed, if it returns no error,
by the command `CLUSTERX setnodes <clusterSlotsStr> <version>`, both sent to
`node.Address`. So the commands sent are these two in this order, or a beginning of the
sequence, `setnodes` only after `setnodeid` has returned no error; and the function
returns nil exactly when the connection was opened and both commands returned no
error. -/
theorem syncClusterInfoToNode_commands (env : Env) (node : NodeInfo) (clusterSlotsStr : String)
    (version : Int) (log : List Entry) :
    ∃ new, (syncClusterInfoToNode env node clusterSlotsStr version log).2 = log ++ new ∧
      (env.NewRedisClient log node.Address ≠ none →
        new = [⟨.NewRedisClient node.Address, env.NewRedisClient log node.Address⟩] ∧
          commands new = []) ∧
      (env.NewRedisClient log node.Address = none →
        (env.Do (log ++ [⟨.NewRedisClient node.Address, none⟩]) node.Address
            (setnodeid node) ≠ none →
          new = [⟨.NewRedisClient node.Address, none⟩,
              ⟨.Do node.Address (setnodeid node),
                env.Do (log ++ [⟨.NewRedisClient node.Address, none⟩]) node.Address
                  (setnodeid node)⟩] ∧
            commands new = [(node.Address, setnodeid node)]) ∧
        (env.Do (log ++ [⟨.NewRedisClient node.Address, none⟩]) node.Address
            (setnodeid node) = none →
          new = [⟨.NewRedisClient node.Address, none⟩,
              ⟨.Do node.Address (setnodeid node), none⟩,
              ⟨.Do node.Address (setnodes clusterSlotsStr version),
                env.Do (log ++ [⟨.NewRedisClient node.Address, none⟩,
                  ⟨.Do node.Address (setnodeid node), none⟩]) node.Address
                  (setnodes clusterSlotsStr version)⟩] ∧
            commands new = [(node.Address, setnodeid node),
              (node.Address, setnodes clusterSlotsStr version)])) ∧
      commands new <+: [(node.Address, setnodeid node),
        (node.Address, setnodes clusterSlotsStr version)] ∧
      ((node.Address, setnodes clusterSlotsStr version) ∈ commands new →
        (⟨.Do node.Address (setnodeid node), none⟩ : Entry) ∈ new) ∧
      ((syncClusterInfoToNode env node clusterSlotsStr version log).1 = none ↔
        env.NewRedisClient log node.Address = none ∧
        env.Do (log ++ [⟨.NewRedisClient node.Address, none⟩]) node.Address
          (setnodeid node) = none ∧
        env.Do (log ++ [⟨.NewRedisClient node.Address, none⟩,
          ⟨.Do node.Address (setnodeid node), none⟩]) node.Address
          (setnodes clusterSlotsStr version) = none) ∧
      ((syncClusterInfoToNode env node clusterSlotsStr version log).1 = none ↔
        (⟨.Do node.Address (setnodeid node), none⟩ : Entry) ∈ new ∧
        (⟨.Do node.Address (setnodes clusterSlotsStr version), none⟩ : Entry) ∈ new) := by
  obtain ⟨c1, c234⟩ := syncClusterInfoToNode_cases env node clusterSlotsStr version log
  cases h1 : env.NewRedisClient log node.Address with
  | some err =>
    refine ⟨_, by rw [c1 err h1], ?_⟩
    simp [c1 err h1, commands]
  | none =>
    obtain ⟨c2, c34⟩ := c234 h1
    cases h2 : env.Do (log ++ [⟨.NewRedisClient node.Address, none⟩]) node.Address
        (setnodeid node) with
    | some err =>
      refine ⟨_, by rw [c2 err h2], ?_⟩
      simp [c2 err h2, commands, setnodeid, setnodes]
    | none =>
      obtain ⟨c3, c4⟩ := c34 h2
      cases h3 : env.Do (log ++ [⟨.NewRedisClient node.Address, none⟩,
          ⟨.Do node.Address (setnodeid node), none⟩]) node.Address
          (setnodes clusterSlotsStr version) with
      | some err =>
        refine ⟨_, by rw [c3 err h3], ?_⟩
        simp [c3 err h3, commands, setnodeid, setnodes]
      | none =>
        refine ⟨_, by rw [c4 h3], ?_⟩
        simp [c4 h3, commands, setnodeid, setnodes]

/-- C3 on the node `a:1` of `cluster3`, which answers: the log is the opening of the
connection, `setnodeid id-a` and `setnodes slots 7`, and the result is nil; and on the
node `b:2`, which no connection can be opened to: the log is the failed opening alone,
no command is sent, and the result is not nil. -/
theorem syncClusterInfoToNode_commands_witness :
    ((syncClusterInfoToNode envDown ⟨"id-a", "a:1"⟩ "slots" 7 []).2 =
        [⟨.NewRedisClient "a:1", none⟩,
          ⟨.Do "a:1" [.str "CLUSTERX", .str "setnodeid", .str "id-a"], none⟩,
          ⟨.Do "a:1" [.str "CLUSTERX", .str "setnodes", .str "slots", .int 7], none⟩] ∧
      (syncClusterInfoToNode envDown ⟨"id-a", "a:1"⟩ "slots" 7 []).1 = none) ∧
    ((syncClusterInfoToNode envDown ⟨"id-b", "b:2"⟩ "slots" 7 []).2 =
        [⟨.NewRedisClient "b:2", some (.New "refused")⟩] ∧
      (syncClusterInfoToNode envDown ⟨"id-b", "b:2"⟩ "slots" 7 []).1 ≠ none) :=
  ⟨match syncClusterInfoToNode_commands envDown ⟨"id-a", "a:1"⟩ "slots" 7 [] with
    | ⟨_, hlog, _, h, _, _, hnil, _⟩ =>
      ⟨by rw [hlog, ((h rfl).2 rfl).1]; rfl, hnil.mpr ⟨rfl, rfl, rfl⟩⟩,
    match syncClusterInfoToNode_commands envDown ⟨"id-b", "b:2"⟩ "slots" 7 [] with
    | ⟨_, hlog, h, _, _, _, hnil, _⟩ =>
      ⟨by rw [hlog, (h (by simp [envDown])).1]; rfl,
        fun hn => by simpa [envDown] using (hnil.mp hn).1⟩⟩

/-! ### `syncClusterInfoToAllNodes` (claim C2) -/

/-- The addresses dialled in a log made of two parts. -/
theorem dialled_append (l1 l2 : List Entry) : dialled (l1 ++ l2) = dialled l1 ++ dialled l2 := by
  induction l1 with
  | nil => rfl
  | cons e l1 ih =>
    obtain ⟨call, err⟩ := e
    cases call <;> simp [dialled, ih]

/-- One sync dials the address of its node, once. -/
theorem syncClusterInfoToNode_dialled (env : Env) (node : NodeInfo) (clusterSlotsStr : String)
    (version : Int) (log : List Entry) :
    ∃ new, (syncClusterInfoToNode env node clusterSlotsStr version log).2 = log ++ new ∧
      dialled new = [node.Address] := by
  obtain ⟨c1, c234⟩ := syncClusterInfoToNode_cases env node clusterSlotsStr version log
  cases h1 : env.NewRedisClient log node.Address with
  | some err => exact ⟨_, by rw [c1 err h1], by simp [dialled]⟩
  | none =>
    obtain ⟨c2, c34⟩ := c234 h1
    cases h2 : env.Do (log ++ [⟨.NewRedisClient node.Address, none⟩]) node.Address
        (setnodeid node) with
    | some err => exact ⟨_, by rw [c2 err h2], by simp [dialled]⟩
    | none =>
      obtain ⟨c3, c4⟩ := c34 h2
      cases h3 : env.Do (log ++ [⟨.NewRedisClient node.Address, none⟩,
          ⟨.Do node.Address (setnodeid node), none⟩]) node.Address
          (setnodes clusterSlotsStr version) with
      | some err => exact ⟨_, by rw [c3 err h3], by simp [dialled]⟩
      | none => exact ⟨_, by rw [c4 h3], by simp [dialled]⟩

/-- The attempts on a list of nodes dial the addresses of the nodes, in their order. -/
theorem attempts_dialled (env : Env) (clusterSlotsStr : String) (version : Int)
    (nodes : List NodeInfo) (log : List Entry) :
    ∃ new, (attempts env clusterSlotsStr version nodes log).2 = log ++ new ∧
      dialled new = nodes.map NodeInfo.Address := by
  induction nodes generalizing log with
  | nil => exact ⟨[], by simp [attempts], rfl⟩
  | cons node nodes ih =>
    obtain ⟨new1, h1, d1⟩ := syncClusterInfoToNode_dialled env node clusterSlotsStr version log
    obtain ⟨new2, h2, d2⟩ :=
      ih (syncClusterInfoToNode env node clusterSlotsStr version log).2
    refine ⟨new1 ++ new2, ?_, ?_⟩
    · simp only [attempts]
      rw [h2, h1, List.append_assoc]
    · rw [dialled_append, d1, d2]
      rfl

/-- There is one attempt for every node. -/
theorem attempts_length (env : Env) (clusterSlotsStr : String) (version : Int)
    (nodes : List NodeInfo) (log : List Entry) :
    (attempts env clusterSlotsStr version nodes log).1.length = nodes.length := by
  induction nodes generalizing log with
  | nil => rfl
  | cons node nodes ih => simp [attempts, ih]

/-- The attempts on two lists of nodes, one after the other. -/
theorem attempts_append (env : Env) (clusterSlotsStr : String) (version : Int)
    (xs ys : List NodeInfo) (log : List Entry) :
    attempts env clusterSlotsStr version (xs ++ ys) log =
      ((attempts env clusterSlotsStr version xs log).1 ++
        (attempts env clusterSlotsStr version ys
          (attempts env clusterSlotsStr version xs log).2).1,
        (attempts env clusterSlotsStr version ys
          (attempts env clusterSlotsStr version xs log).2).2) := by
  induction xs generalizing log with
  | nil => rfl
  | cons x xs ih => simp [attempts, ih]

/-- The failures of two lists of attempts. -/
theorem failures_append (rs1 rs2 : List (Option Error)) :
    failures (rs1 ++ rs2) = failures rs1 ++ failures rs2 := by
  induction rs1 with
  | nil => rfl
  | cons r rs1 ih => cases r <;> simp [failures, ih]

/-- An attempt failed exactly when there is a failure. -/
theorem failures_ne_nil (rs : List (Option Error)) :
    failures rs ≠ [] ↔ ∃ err, some err ∈ rs := by
  induction rs with
  | nil => simp [failures]
  | cons r rs ih =>
    cases r with
    | none => simp [failures, ih]
    | some err => simp [failures]

/-- The inner loop collects, behind `errs`, the failures of the attempts on the nodes. -/
theorem syncNodes_eq (env : Env) (clusterSlotsStr : String) (version : Int)
    (nodes : List NodeInfo) (errs : List Error) (log : List Entry) :
    syncNodes env clusterSlotsStr version nodes errs log =
      (errs ++ failures (attempts env clusterSlotsStr version nodes log).1,
        (attempts env clusterSlotsStr version nodes log).2) := by
  induction nodes generalizing errs log with
  | nil => simp [syncNodes, attempts, failures]
  | cons node nodes ih =>
    rw [syncNodes]
    rcases h : syncClusterInfoToNode env node clusterSlotsStr version log with ⟨r, log'⟩
    cases r with
    | none => simp [ih, attempts, h, failures]
    | some err => simp [ih, attempts, h, failures]

/-- The outer loop collects, behind `errs`, the failures of the attempts on the nodes of
the shards, shard after shard. -/
theorem syncShards_eq (env : Env) (clusterSlotsStr : String) (version : Int)
    (shards : List Shard) (errs : List Error) (log : List Entry) :
    syncShards env clusterSlotsStr version shards errs log =
      (errs ++ failures
          (attempts env clusterSlotsStr version (shards.map Shard.Nodes).flatten log).1,
        (attempts env clusterSlotsStr version (shards.map Shard.Nodes).flatten log).2) := by
  induction shards generalizing errs log with
  | nil => simp [syncShards, attempts, failures]
  | cons shard shards ih =>
    rw [syncShards, syncNodes_eq]
    simp only [ih, List.map_cons, List.flatten_cons, attempts_append, failures_append,
      List.append_assoc]

/-- C2: when `ToSlotString` succeeds with `slots`, `syncClusterInfoToAllNodes` leaves the
log that the attempts on all nodes of the cluster leave, made one after the other in
shard order and then node order, whether or not earlier ones failed: one attempt for
every node, each dialling its node; it returns a non-nil error exactly when at least one
attempt failed, and the error is then the batch of the failures, one for every failed
node. When `ToSlotString` fails, it returns that error and the log is unchanged. -/
theorem syncClusterInfoToAllNodes_attempts (env : Env) (cluster : Cluster) (log : List Entry) :
    (∀ slots, env.ToSlotString cluster = .ok slots →
      (syncClusterInfoToAllNodes env cluster log).2 =
          (attempts env slots cluster.Version (allNodes cluster) log).2 ∧
        (attempts env slots cluster.Version (allNodes cluster) log).1.length =
          (allNodes cluster).length ∧
        (∃ new, (syncClusterInfoToAllNodes env cluster log).2 = log ++ new ∧
          dialled new = (allNodes cluster).map NodeInfo.Address) ∧
        ((syncClusterInfoToAllNodes env cluster log).1 ≠ none ↔
          ∃ err, some err ∈ (attempts env slots cluster.Version (allNodes cluster) log).1) ∧
        ((syncClusterInfoToAllNodes env cluster log).1 ≠ none →
          (syncClusterInfoToAllNodes env cluster log).1 = some (.Batch (failures
            (attempts env slots cluster.Version (allNodes cluster) log).1)))) ∧
      (∀ err, env.ToSlotString cluster = .error err →
        syncClusterInfoToAllNodes env cluster log = (some err, log)) := by
  constructor
  · intro slots hs
    have hlog : (syncClusterInfoToAllNodes env cluster log).2 =
        (attempts env slots cluster.Version (allNodes cluster) log).2 := by
      simp only [syncClusterInfoToAllNodes, hs, syncShards_eq, List.nil_append, allNodes]
      split <;> simp_all
    have hres : ∀ errs, failures (attempts env slots cluster.Version (allNodes cluster) log).1
        = errs → (syncClusterInfoToAllNodes env cluster log).1 =
          match errs with
          | [] => none
          | err :: errs => some (.Batch (err :: errs)) := by
      intro errs he
      simp only [syncClusterInfoToAllNodes, hs, syncShards_eq, List.nil_append]
      rw [allNodes] at he
      rw [he]
      cases errs <;> rfl
    refine ⟨hlog, attempts_length _ _ _ _ _, ?_, ?_, ?_⟩
    · rw [hlog]
      exact attempts_dialled _ _ _ _ _
    · rw [← failures_ne_nil, hres _ rfl]
      cases failures (attempts env slots cluster.Version (allNodes cluster) log).1 <;> simp
    · rw [hres _ rfl]
      cases failures (attempts env slots cluster.Version (allNodes cluster) log).1 <;> simp
  · intro err he
    simp [syncClusterInfoToAllNodes, he]

/-- C2 on `cluster3`: where no connection to `b:2` can be opened, the three nodes are
dialled in order, `c:3` after the failure at `b:2`, and the result is an error; where
`ToSlotString` fails, its error is returned and nothing is dialled. -/
theorem syncClusterInfoToAllNodes_attempts_witness :
    (∃ new, (syncClusterInfoToAllNodes envDown cluster3 []).2 = [] ++ new ∧
        dialled new = ["a:1", "b:2", "c:3"]) ∧
      (syncClusterInfoToAllNodes envDown cluster3 []).1 ≠ none ∧
      syncClusterInfoToAllNodes envBroken cluster3 [] = (some (.New "no slots"), []) :=
  ⟨((syncClusterInfoToAllNodes_attempts envDown cluster3 []).1 "slots" rfl).2.2.1,
    ((syncClusterInfoToAllNodes_attempts envDown cluster3 []).1 "slots" rfl).2.2.2.1.mpr
      ⟨.Wrap "addr: b:2, dail: " (.New "refused"), List.Mem.tail _ (List.Mem.head _)⟩,
    (syncClusterInfoToAllNodes_attempts envBroken cluster3 []).2 _ rfl⟩

/-- The log after `syncClusterInfoToAllNodes` is the log before it and what was added. -/
theorem syncClusterInfoToAllNodes_log (env : Env) (cluster : Cluster) (log : List Entry) :
    ∃ new, (syncClusterInfoToAllNodes env cluster log).2 = log ++ new := by
  cases hs : env.ToSlotString cluster with
  | error err => exact ⟨[], by simp [syncClusterInfoToAllNodes, hs]⟩
  | ok slots =>
    obtain ⟨new, hnew, _⟩ := attempts_dialled env slots cluster.Version (allNodes cluster) log
    refine ⟨new, ?_⟩
    rw [← hnew]
    simp only [syncClusterInfoToAllNodes, hs, syncShards_eq, List.nil_append, allNodes]
    split <;> simp_all

/-! ### `handleEvent` (claim C1) -/

/-- C1: for an event of type Cluster, Shard or Node whose command is not Remove, the
first thing `handleEvent` does is the read of the cluster
`(event.Namespace, event.Cluster)` from the storage, and, when the read succeeds, what
follows is the push of the cluster read to its data nodes (when it fails, the error is
returned and nothing is pushed); for every other event, `handleEvent`
returns nil and leaves the log as it is: no read of the storage, no command to any data
node. -/
theorem handleEvent_reads_and_pushes (env : Env) (event : Event) (log : List Entry) :
    ((event.Typ = .EventCluster ∨ event.Typ = .EventShard ∨ event.Typ = .EventNode) ∧
        event.Command ≠ .CommandRemove →
      (∃ err later, (handleEvent env event log).2 =
        log ++ ⟨.GetClusterInfo event.Namespace event.Cluster, err⟩ :: later) ∧
      (∀ cluster, env.GetClusterInfo log event.Namespace event.Cluster = .ok cluster →
        handleEvent env event log = syncClusterInfoToAllNodes env cluster
          (log ++ [⟨.GetClusterInfo event.Namespace event.Cluster, none⟩])) ∧
      (∀ err, env.GetClusterInfo log event.Namespace event.Cluster = .error err →
        handleEvent env event log = (some (.Wrap "failed to get cluster: " err),
          log ++ [⟨.GetClusterInfo event.Namespace event.Cluster, some err⟩]))) ∧
    (¬ ((event.Typ = .EventCluster ∨ event.Typ = .EventShard ∨ event.Typ = .EventNode) ∧
        event.Command ≠ .CommandRemove) →
      handleEvent env event log = (none, log)) := by
  constructor
  · rintro ⟨htyp, hcmd⟩
    have hh : handleEvent env event log = handleClusterEvent env event log := by
      rcases htyp with h | h | h <;> simp [handleEvent, h]
    have hok : ∀ cluster, env.GetClusterInfo log event.Namespace event.Cluster = .ok cluster →
        handleEvent env event log = syncClusterInfoToAllNodes env cluster
          (log ++ [⟨.GetClusterInfo event.Namespace event.Cluster, none⟩]) := by
      intro cluster hget
      rw [hh]
      simp [handleClusterEvent, hcmd, getClusterInfo, hget]
    have herr : ∀ err, env.GetClusterInfo log event.Namespace event.Cluster = .error err →
        handleEvent env event log = (some (.Wrap "failed to get cluster: " err),
          log ++ [⟨.GetClusterInfo event.Namespace event.Cluster, some err⟩]) := by
      intro err hget
      rw [hh]
      simp [handleClusterEvent, hcmd, getClusterInfo, hget]
    refine ⟨?_, hok, herr⟩
    cases hget : env.GetClusterInfo log event.Namespace event.Cluster with
    | error err => exact ⟨some err, [], by rw [herr err hget]⟩
    | ok cluster =>
      obtain ⟨new, hnew⟩ := syncClusterInfoToAllNodes_log env cluster
        (log ++ [⟨.GetClusterInfo event.Namespace event.Cluster, none⟩])
      exact ⟨none, new, by rw [hok cluster hget, hnew, List.append_assoc]; rfl⟩
  · intro hnot
    cases htyp : event.Typ with
    | EventNamespace => simp [handleEvent, htyp]
    | EventCluster =>
      have hcmd : event.Command = .CommandRemove := by
        by_contra hc
        exact hnot ⟨Or.inl htyp, hc⟩
      simp [handleEvent, htyp, handleClusterEvent, hcmd]
    | EventShard =>
      have hcmd : event.Command = .CommandRemove := by
        by_contra hc
        exact hnot ⟨Or.inr (Or.inl htyp), hc⟩
      simp [handleEvent, htyp, handleClusterEvent, hcmd]
    | EventNode =>
      have hcmd : event.Command = .CommandRemove := by
        by_contra hc
        exact hnot ⟨Or.inr (Or.inr htyp), hc⟩
      simp [handleEvent, htyp, handleClusterEvent, hcmd]

/-- C1 on four events: an update of a node reads `("ns", "c")` and pushes the cluster
read; where the read fails its error is returned; the removal of a cluster and the
creation of a namespace return nil and leave the log empty. -/
theorem handleEvent_reads_and_pushes_witness :
    handleEvent envDown ⟨"ns", "c", 0, "id-a", .EventNode, .CommandUpdate⟩ [] =
        syncClusterInfoToAllNodes envDown cluster3 [⟨.GetClusterInfo "ns" "c", none⟩] ∧
      handleEvent envBroken ⟨"ns", "c", 0, "", .EventShard, .CommandCreate⟩ [] =
        (some (.Wrap "failed to get cluster: " (.New "no storage")),
          [⟨.GetClusterInfo "ns" "c", some (.New "no storage")⟩]) ∧
      handleEvent envDown ⟨"ns", "c", 0, "", .EventCluster, .CommandRemove⟩ [] = (none, []) ∧
      handleEvent envDown ⟨"ns", "", 0, "", .EventNamespace, .CommandCreate⟩ [] = (none, []) :=
  ⟨((handleEvent_reads_and_pushes envDown ⟨"ns", "c", 0, "id-a", .EventNode, .CommandUpdate⟩
      []).1 ⟨Or.inr (Or.inr rfl), by decide⟩).2.1 cluster3 rfl,
    ((handleEvent_reads_and_pushes envBroken ⟨"ns", "c", 0, "", .EventShard, .CommandCreate⟩
      []).1 ⟨Or.inr (Or.inl rfl), by decide⟩).2.2 (.New "no storage") rfl,
    (handleEvent_reads_and_pushes envDown ⟨"ns", "c", 0, "", .EventCluster, .CommandRemove⟩
      []).2 (by decide),
    (handleEvent_reads_and_pushes envDown ⟨"ns", "", 0, "", .EventNamespace, .CommandCreate⟩
      []).2 (by decide)⟩

end controller

end Kvrocks
